import Mathlib

/-!
Verification of the anomaly-scoring core of `dd_widgets/timeseries/__init__.py`.

Matrices are real-valued in the source (numpy float arrays); they are embedded
over `ℚ` with exact arithmetic.  A matrix entering the column-wise operations
(`normalize_error`, `normalize_data`, column slicing in `compute_anomalies`)
is represented as its list of columns (`Cols`), since every numpy operation
involved acts column by column; `concat_all_datafiles`, which concatenates
along the time axis (numpy `axis = 0`), is stated over the list-of-rows
representation (`Mat`).
-/

/-- Column-oriented matrix: a list of feature columns, each a list over time. -/
abbrev Cols := List (List ℚ)

/-- Row-oriented matrix: a list of time rows (numpy layout for `axis = 0`). -/
abbrev Mat := List (List ℚ)

/- ----------------------------------------------------------------
Evaluator: `AnomalyParameters.get_anomaly_results` and
`AnomalyParameters.get_anomaly_score` (source lines 245-283).
---------------------------------------------------------------- -/

/-- Containment test of the inner loop of `get_anomaly_results`:
`start <= anom <= end` on the inclusive interval bounds. -/
def inIntv (a : Int) (p : Int × Int) : Bool :=
  decide (p.1 ≤ a ∧ a ≤ p.2)

/-- Index of the first ground-truth interval containing `a`, mirroring the
inner `for i in range(len(targ_anom))` loop of `get_anomaly_results` which
breaks at the first interval with `start <= anom <= end`. -/
def firstMatch (a : Int) : List (Int × Int) → Option Nat
  | [] => none
  | p :: rest => if inIntv a p then some 0 else (firstMatch a rest).map (· + 1)

/-- Outer loop of `get_anomaly_results`: threads the `found` flag list and
collects the unmatched predictions (`fps`) in order. -/
def scanAnoms (targ : List (Int × Int)) : List Int → List Bool → List Bool × List Int
  | [], found => (found, [])
  | a :: rest, found =>
    match firstMatch a targ with
    | some i => scanAnoms targ rest (found.set i true)
    | none =>
      let r := scanAnoms targ rest found
      (r.1, a :: r.2)

/-- `AnomalyParameters.get_anomaly_results`: returns
`(true_positive, false_negative, false_positive)`. -/
def get_anomaly_results (pred_anom : List Int) (targ_anom : List (Int × Int)) :
    Nat × Nat × Nat :=
  let r := scanAnoms targ_anom pred_anom (List.replicate targ_anom.length false)
  (r.1.count true, targ_anom.length - r.1.count true, r.2.length)

/-- Message of the Python `ZeroDivisionError` exception raised by an integer
division with zero denominator. -/
def zeroDivErr : String := "ZeroDivisionError"

/-- `AnomalyParameters.get_anomaly_score`: `(tp/(tp+fn), tp/(tp+fp))`.  The
two divisions are evaluated left to right as in the Python tuple expression;
a zero denominator raises `ZeroDivisionError`, embedded as `Except.error`. -/
def get_anomaly_score (pred_anom : List Int) (targ_anom : List (Int × Int)) :
    Except String (ℚ × ℚ) :=
  let r := get_anomaly_results pred_anom targ_anom
  if ((r.1 : ℚ) + r.2.1) = 0 then Except.error zeroDivErr
  else if ((r.1 : ℚ) + r.2.2) = 0 then Except.error zeroDivErr
  else Except.ok ((r.1 : ℚ) / ((r.1 : ℚ) + r.2.1), (r.1 : ℚ) / ((r.1 : ℚ) + r.2.2))

/- ----------------------------------------------------------------
Evaluator lemmas.
---------------------------------------------------------------- -/

/-- Disjointness of two inclusive integer intervals, as used in the data
model of ground-truth intervals (non-overlapping by construction). -/
def disjPair (p q : Int × Int) : Prop := p.2 < q.1 ∨ q.2 < p.1

instance (p q : Int × Int) : Decidable (disjPair p q) := by
  unfold disjPair
  infer_instance

theorem disjPair_not_both {p q : Int × Int} {a : Int} (h : disjPair p q)
    (hp : inIntv a p = true) : inIntv a q = false := by
  simp only [inIntv, decide_eq_true_eq] at hp
  simp only [inIntv, decide_eq_false_iff_not, not_and, not_le]
  simp only [disjPair] at h
  obtain ⟨hp1, hp2⟩ := hp
  intro hq
  rcases h with h | h <;> linarith

theorem firstMatch_lt {a : Int} {targ : List (Int × Int)} {i : Nat}
    (h : firstMatch a targ = some i) : i < targ.length := by
  induction targ generalizing i with
  | nil => simp [firstMatch] at h
  | cons p rest ih =>
    by_cases hc : inIntv a p
    · simp only [firstMatch, if_pos hc, Option.some.injEq] at h
      subst h
      simp
    · simp only [firstMatch, if_neg hc, Option.map_eq_some'] at h
      obtain ⟨j, hj, rfl⟩ := h
      have := ih hj
      simp only [List.length_cons]
      omega

theorem firstMatch_inIntv {a : Int} {targ : List (Int × Int)} {i : Nat}
    (h : firstMatch a targ = some i) : inIntv a (targ.getD i (0, 0)) = true := by
  induction targ generalizing i with
  | nil => simp [firstMatch] at h
  | cons p rest ih =>
    by_cases hc : inIntv a p
    · simp only [firstMatch, if_pos hc, Option.some.injEq] at h
      subst h
      simpa using hc
    · simp only [firstMatch, if_neg hc, Option.map_eq_some'] at h
      obtain ⟨j, hj, rfl⟩ := h
      simpa using ih hj

theorem firstMatch_eq_none_iff {a : Int} {targ : List (Int × Int)} :
    firstMatch a targ = none ↔ ∀ p ∈ targ, inIntv a p = false := by
  induction targ with
  | nil => simp [firstMatch]
  | cons p rest ih =>
    by_cases hc : inIntv a p
    · simp [firstMatch, if_pos hc, hc]
    · simp [firstMatch, if_neg hc, Option.map_eq_none', ih,
        Bool.eq_false_iff.2 hc]

theorem firstMatch_of_inIntv {targ : List (Int × Int)}
    (hd : targ.Pairwise disjPair) {i : Nat} {a : Int} (hi : i < targ.length)
    (h : inIntv a (targ.getD i (0, 0)) = true) : firstMatch a targ = some i := by
  induction targ generalizing i with
  | nil => simp at hi
  | cons p rest ih =>
    rw [List.pairwise_cons] at hd
    obtain ⟨hall, hrest⟩ := hd
    match i with
    | 0 =>
      simp only [List.getD_cons_zero] at h
      simp [firstMatch, if_pos h]
    | k + 1 =>
      simp only [List.getD_cons_succ] at h
      have hk : k < rest.length := by
        simp only [List.length_cons] at hi
        omega
      have hq : rest.getD k (0, 0) ∈ rest := by
        rw [List.getD_eq_getElem _ _ hk]
        exact List.getElem_mem hk
      have hcp : inIntv a p = false := by
        by_contra hcp
        have hcp' : inIntv a p = true := by
          revert hcp
          cases inIntv a p <;> simp
        have := disjPair_not_both (hall _ hq) hcp'
        rw [h] at this
        exact Bool.true_eq_false.mp this
      rw [firstMatch, if_neg (by simp [hcp]), ih hrest hk h]
      rfl

/-- Effect of `List.set` on `getD`, used for the `found` flag list. -/
theorem getD_set_bool (l : List Bool) (n i : Nat) (v : Bool) :
    (l.set n v).getD i false =
      if n = i ∧ n < l.length then v else l.getD i false := by
  induction l generalizing n i with
  | nil => simp
  | cons b t ih =>
    match n, i with
    | 0, 0 => simp
    | 0, j + 1 => simp
    | m + 1, 0 => simp
    | m + 1, j + 1 =>
      simp only [List.set_cons_succ, List.getD_cons_succ, List.length_cons, ih]
      by_cases hc : m = j ∧ m < t.length
      · rw [if_pos hc, if_pos ⟨by omega, by omega⟩]
      · rw [if_neg hc, if_neg (by omega)]

theorem scanAnoms_fst_length (targ : List (Int × Int)) (pred : List Int)
    (found : List Bool) :
    (scanAnoms targ pred found).1.length = found.length := by
  induction pred generalizing found with
  | nil => simp [scanAnoms]
  | cons a rest ih =>
    rw [scanAnoms]
    rcases hm : firstMatch a targ with _ | i
    · exact ih found
    · rw [ih]
      exact List.length_set ..

theorem scanAnoms_snd (targ : List (Int × Int)) (pred : List Int)
    (found : List Bool) :
    (scanAnoms targ pred found).2 =
      pred.filter (fun a => (firstMatch a targ).isNone) := by
  induction pred generalizing found with
  | nil => simp [scanAnoms]
  | cons a rest ih =>
    rw [scanAnoms]
    rcases hm : firstMatch a targ with _ | i
    · simp [List.filter_cons, hm, ih]
    · simp [List.filter_cons, hm, ih]

theorem scanAnoms_fst_getD (targ : List (Int × Int)) (pred : List Int)
    (found : List Bool) (hfl : found.length = targ.length) (i : Nat) :
    (scanAnoms targ pred found).1.getD i false =
      (found.getD i false || pred.any (fun a => firstMatch a targ == some i)) := by
  induction pred generalizing found with
  | nil => simp [scanAnoms]
  | cons a rest ih =>
    rw [scanAnoms]
    rcases hm : firstMatch a targ with _ | j
    · simp only [List.any_cons, hm]
      rw [ih found hfl]
      simp
    · simp only [List.any_cons, hm]
      rw [ih (found.set j true) (by rw [List.length_set]; exact hfl)]
      rw [getD_set_bool]
      have hj : j < targ.length := firstMatch_lt hm
      by_cases hji : j = i
      · subst hji
        rw [if_pos ⟨rfl, by omega⟩]
        simp
      · rw [if_neg (by omega)]
        have : (some j == some i) = false := by
          simp [hji]
        rw [this]
        simp

/-- Two lists of the same length with equal `getD` entries are equal. -/
theorem list_eq_of_getD {l₁ : List Bool} : ∀ (l₂ : List Bool),
    l₁.length = l₂.length →
    (∀ i, i < l₁.length → l₁.getD i false = l₂.getD i false) → l₁ = l₂ := by
  induction l₁ with
  | nil =>
    intro l₂ hlen h
    cases l₂ with
    | nil => rfl
    | cons b t => simp at hlen
  | cons a t ih =>
    intro l₂ hlen h
    cases l₂ with
    | nil => simp at hlen
    | cons b u =>
      have h0 := h 0 (by simp)
      simp only [List.getD_cons_zero] at h0
      subst h0
      have := ih u (by simpa using hlen) (fun i hi => by
        have := h (i + 1) (by simpa using Nat.succ_lt_succ hi)
        simpa using this)
      rw [this]

theorem count_true_map {α : Type} (l : List α) (f : α → Bool) :
    (l.map f).count true = (l.filter f).length := by
  induction l with
  | nil => simp
  | cons a t ih =>
    rcases hf : f a with _ | _ <;>
      simp [List.count_cons, List.filter_cons, hf, ih]

theorem firstMatch_isNone_eq (a : Int) (targ : List (Int × Int)) :
    (firstMatch a targ).isNone = targ.all (fun p => !(inIntv a p)) := by
  rcases hm : firstMatch a targ with _ | i
  · simp only [Option.isNone_none]
    rw [eq_comm, List.all_eq_true]
    intro p hp
    simp [firstMatch_eq_none_iff.mp hm p hp]
  · simp only [Option.isNone_some]
    rw [eq_comm, ← Bool.not_eq_true, List.all_eq_true]
    intro hall
    have hi := firstMatch_lt hm
    have hin := firstMatch_inIntv hm
    have hmem : targ.getD i (0, 0) ∈ targ := by
      rw [List.getD_eq_getElem _ _ hi]
      exact List.getElem_mem hi
    have := hall _ hmem
    rw [hin] at this
    simp at this

theorem filter_len_congr {α : Type} {l : List α} {p q : α → Bool}
    (h : ∀ x ∈ l, p x = q x) : l.filter p = l.filter q := by
  induction l with
  | nil => rfl
  | cons a t ih =>
    have ha := h a (by simp)
    simp only [List.filter_cons, ha]
    rw [ih (fun x hx => h x (by simp [hx]))]

/-- Found flags after the scan: interval `i` is marked iff some prediction
has interval `i` as the first interval containing it; under pairwise
disjointness this is plain containment. -/
theorem scan_found_eq (pred : List Int) (targ : List (Int × Int))
    (hd : targ.Pairwise disjPair) :
    (scanAnoms targ pred (List.replicate targ.length false)).1 =
      targ.map (fun p => pred.any (fun a => inIntv a p)) := by
  apply list_eq_of_getD
  · rw [scanAnoms_fst_length]
    simp
  · intro i hi
    rw [scanAnoms_fst_length] at hi
    simp only [List.length_replicate] at hi
    rw [scanAnoms_fst_getD _ _ _ (by simp) i]
    have hrep : (List.replicate targ.length false).getD i false = false := by
      rw [List.getD_eq_getElem _ _ (by simpa using hi)]
      simp
    rw [hrep, Bool.false_or]
    rw [List.getD_eq_getElem _ _ (by simpa using hi), List.getElem_map]
    rw [Bool.eq_iff_iff]
    simp only [List.any_eq_true, beq_iff_eq]
    constructor
    · rintro ⟨a, ha, hfm⟩
      refine ⟨a, ha, ?_⟩
      have := firstMatch_inIntv hfm
      rwa [List.getD_eq_getElem _ _ hi] at this
    · rintro ⟨a, ha, hin⟩
      refine ⟨a, ha, ?_⟩
      exact firstMatch_of_inIntv hd hi (by rwa [List.getD_eq_getElem _ _ hi])

/-- C1 (amended): with pairwise disjoint ground-truth intervals,
`get_anomaly_results` returns `tp` = number of intervals containing at least
one predicted index, `fn` = number of intervals minus `tp`, and `fp` = number
of predicted indices contained in no interval; an index falling in an
already-found interval is absorbed.  On the concrete scenario of the spec the
counts are `(2, 0, 1)` and `get_anomaly_score` returns recall `1` and second
ratio `2/3`. -/
theorem evaluator_results_characterization :
    (∀ (pred : List Int) (targ : List (Int × Int)),
      targ.Pairwise disjPair →
      get_anomaly_results pred targ =
        ((targ.filter (fun p => pred.any (fun a => inIntv a p))).length,
          targ.length -
            (targ.filter (fun p => pred.any (fun a => inIntv a p))).length,
          (pred.filter (fun a => targ.all (fun p => !(inIntv a p)))).length)) ∧
    get_anomaly_results [12, 15, 55, 70] [(10, 20), (50, 60)] = (2, 0, 1) ∧
    get_anomaly_score [12, 15, 55, 70] [(10, 20), (50, 60)] =
      Except.ok (1, 2 / 3) := by
  refine ⟨?_, by decide, ?_⟩
  · intro pred targ hd
    simp only [get_anomaly_results]
    rw [scan_found_eq pred targ hd, count_true_map, scanAnoms_snd]
    rw [filter_len_congr (fun a _ => firstMatch_isNone_eq a targ)]
  · have h : get_anomaly_results [12, 15, 55, 70] [(10, 20), (50, 60)] =
        (2, 0, 1) := by decide
    norm_num [get_anomaly_score, h]

theorem evaluator_results_characterization_witness :
    get_anomaly_results [2] [(0, 3), (10, 12)] = (1, 1, 0) := by
  have h := evaluator_results_characterization.1 [2] [(0, 3), (10, 12)]
    (by decide)
  rw [h]
  decide

/-- C1 counterexample: with overlapping ground-truth intervals `(0,10)` and
`(5,15)`, the prediction `7` lies in both intervals, so the number of
intervals containing at least one predicted index is `2`, but the code marks
only the first containing interval and returns `tp = 1, fn = 1, fp = 0`. -/
theorem evaluator_overlap_counterexample :
    get_anomaly_results [7] [(0, 10), (5, 15)] = (1, 1, 0) ∧
    (([(0, 10), (5, 15)] : List (Int × Int)).filter
      (fun p => ([7] : List Int).any (fun a => inIntv a p))).length = 2 := by
  decide

/-- C2: scoring an empty prediction list against the single interval
`(10, 20)` gives `tp = 0, fn = 1, fp = 0`; `get_anomaly_score` surfaces the
zero denominator of the second ratio as a `ZeroDivisionError` rather than
returning a value silently, and the recall ratio `tp/(tp+fn)` is `0`. -/
theorem evaluator_empty_predictions :
    get_anomaly_results [] [(10, 20)] = (0, 1, 0) ∧
    get_anomaly_score [] [(10, 20)] = Except.error zeroDivErr ∧
    ((get_anomaly_results [] [(10, 20)]).1 : ℚ) /
        (((get_anomaly_results [] [(10, 20)]).1 : ℚ) +
          ((get_anomaly_results [] [(10, 20)]).2.1 : ℚ)) = 0 := by
  have h : get_anomaly_results [] [(10, 20)] = (0, 1, 0) := by decide
  refine ⟨h, ?_, ?_⟩
  · norm_num [get_anomaly_score, h]
  · rw [h]
    norm_num

/- ----------------------------------------------------------------
Normalizer: `normalize_error` (source lines 105-110) and
`normalize_data` (source lines 112-118).
---------------------------------------------------------------- -/

/-- Numerical-stability epsilon `1E-5` of the normalizer, as an exact
rational. -/
def eps : ℚ := 1 / 100000

/-- Column minimum, `np.min(data, axis 0)` restricted to one column
(columns are nonempty wherever the source applies it). -/
def colMin : List ℚ → ℚ
  | [] => 0
  | [x] => x
  | x :: y :: t => min x (colMin (y :: t))

/-- Column maximum, `np.amax(data, axis 0)` restricted to one column. -/
def colMax : List ℚ → ℚ
  | [] => 0
  | [x] => x
  | x :: y :: t => max x (colMax (y :: t))

/-- `normalize_error`: per-column min-max scaling
`(x - min_col) / (max_col - min_col + eps)`. -/
def normalize_error (data : Cols) : Cols :=
  data.map (fun c => c.map (fun x => (x - colMin c) / (colMax c - colMin c + eps)))

/-- `normalize_data`: scales both the prediction and the target columns with
the per-column min and max of the target. -/
def normalize_data (pred targ : Cols) : Cols × Cols :=
  (List.zipWith (fun pcol tcol =>
      pcol.map (fun x => (x - colMin tcol) / (colMax tcol - colMin tcol + eps)))
      pred targ,
    targ.map (fun tcol =>
      tcol.map (fun x => (x - colMin tcol) / (colMax tcol - colMin tcol + eps))))

theorem colMin_le {c : List ℚ} : ∀ x ∈ c, colMin c ≤ x := by
  induction c with
  | nil => simp
  | cons a t ih =>
    intro x hx
    cases t with
    | nil =>
      rw [List.mem_singleton.mp hx]
      simp [colMin]
    | cons b u =>
      rw [show colMin (a :: b :: u) = min a (colMin (b :: u)) from rfl]
      rcases List.mem_cons.mp hx with rfl | hx'
      · exact min_le_left _ _
      · exact le_trans (min_le_right _ _) (ih x hx')

theorem le_colMax {c : List ℚ} : ∀ x ∈ c, x ≤ colMax c := by
  induction c with
  | nil => simp
  | cons a t ih =>
    intro x hx
    cases t with
    | nil =>
      rw [List.mem_singleton.mp hx]
      simp [colMax]
    | cons b u =>
      rw [show colMax (a :: b :: u) = max a (colMax (b :: u)) from rfl]
      rcases List.mem_cons.mp hx with rfl | hx'
      · exact le_max_left _ _
      · exact le_trans (ih x hx') (le_max_right _ _)

theorem colMin_mem {c : List ℚ} (h : c ≠ []) : colMin c ∈ c := by
  induction c with
  | nil => exact absurd rfl h
  | cons a t ih =>
    cases t with
    | nil => simp [colMin]
    | cons b u =>
      rw [show colMin (a :: b :: u) = min a (colMin (b :: u)) from rfl]
      rcases min_choice a (colMin (b :: u)) with hm | hm
      · rw [hm]
        exact List.mem_cons_self _ _
      · rw [hm]
        exact List.mem_cons_of_mem _ (ih (by simp))

/-- C3: entries of a non-degenerate normalized column lie in `[0, 1)`
(hence in `[0, 1 + δ]`); a constant column normalizes to exactly `0`
everywhere, with the divisor `max - min + eps` never zero. -/
theorem normalize_error_range :
    ∀ (data : Cols) (j : ℕ), j < data.length →
      (colMin (data.getD j []) < colMax (data.getD j []) →
        ∀ y ∈ (normalize_error data).getD j [], 0 ≤ y ∧ y < 1) ∧
      ((∀ x ∈ data.getD j [], ∀ z ∈ data.getD j [], x = z) →
        ∀ y ∈ (normalize_error data).getD j [], y = 0) := by
  intro data j hj
  have hout : (normalize_error data).getD j [] =
      (data.getD j []).map (fun x =>
        (x - colMin (data.getD j [])) /
          (colMax (data.getD j []) - colMin (data.getD j []) + eps)) := by
    simp only [List.getD_eq_getElem _ _ hj, List.getD_eq_getElem _ _
      (show j < (normalize_error data).length by simpa [normalize_error] using hj)]
    simp [normalize_error]
  constructor
  · intro hlt y hy
    rw [hout] at hy
    obtain ⟨x, hx, rfl⟩ := List.mem_map.mp hy
    have h1 : colMin (data.getD j []) ≤ x := colMin_le x hx
    have h2 : x ≤ colMax (data.getD j []) := le_colMax x hx
    have heps : (0 : ℚ) < eps := by norm_num [eps]
    have hden : 0 < colMax (data.getD j []) - colMin (data.getD j []) + eps := by
      linarith
    constructor
    · apply div_nonneg _ (le_of_lt hden)
      linarith
    · rw [div_lt_one hden]
      linarith
  · intro hconst y hy
    rw [hout] at hy
    obtain ⟨x, hx, rfl⟩ := List.mem_map.mp hy
    have hne : data.getD j [] ≠ [] := by
      intro h
      rw [h] at hx
      exact List.not_mem_nil x hx
    rw [hconst x hx (colMin (data.getD j [])) (colMin_mem hne), sub_self, zero_div]

theorem normalize_error_range_witness :
    (0 ≤ ((normalize_error [[1, 3], [5, 5]]).getD 0 []).getD 1 0 ∧
      ((normalize_error [[1, 3], [5, 5]]).getD 0 []).getD 1 0 < 1) ∧
    ((normalize_error [[1, 3], [5, 5]]).getD 1 []).getD 0 0 = 0 := by
  constructor
  · apply (normalize_error_range [[1, 3], [5, 5]] 0 (by norm_num)).1
    · norm_num [colMin, colMax, min_def, max_def]
    · rw [List.getD_eq_getElem _ _ (show 1 <
        ((normalize_error [[1, 3], [5, 5]]).getD 0 []).length by
          simp [normalize_error])]
      exact List.getElem_mem _
  · apply (normalize_error_range [[1, 3], [5, 5]] 1 (by norm_num)).2
    · intro x hx z hz
      simp only [List.getD_cons_succ, List.getD_cons_zero] at hx hz
      simp at hx hz
      rw [hx, hz]
    · rw [List.getD_eq_getElem _ _ (show 0 <
        ((normalize_error [[1, 3], [5, 5]]).getD 1 []).length by
          simp [normalize_error])]
      exact List.getElem_mem _

theorem zipWith_getD {α β γ : Type} (f : α → β → γ) (da : α) (db : β) (dc : γ)
    (a : List α) (b : List β) (j : ℕ) (ha : j < a.length) (hb : j < b.length) :
    (List.zipWith f a b).getD j dc = f (a.getD j da) (b.getD j db) := by
  induction a generalizing b j with
  | nil => simp at ha
  | cons x t ih =>
    cases b with
    | nil => simp at hb
    | cons y u =>
      cases j with
      | zero => simp
      | succ k =>
        simp only [List.zipWith_cons_cons, List.getD_cons_succ]
        exact ih u k (by simpa using ha) (by simpa using hb)

/-- C9: `normalize_data` scales both matrices with the target per-column
statistics: the normalized target is exactly `normalize_error` of the target,
and every prediction column is shifted by the min and divided by
`max - min + eps` of the corresponding target column. -/
theorem normalize_data_target_scale :
    ∀ (pred targ : Cols),
      (normalize_data pred targ).2 = normalize_error targ ∧
      (pred.length = targ.length → ∀ j, j < pred.length →
        (normalize_data pred targ).1.getD j [] =
          (pred.getD j []).map (fun x =>
            (x - colMin (targ.getD j [])) /
              (colMax (targ.getD j []) - colMin (targ.getD j []) + eps))) := by
  intro pred targ
  constructor
  · rfl
  · intro hlen j hj
    have hz := zipWith_getD (fun pcol tcol => pcol.map (fun x =>
        (x - colMin tcol) / (colMax tcol - colMin tcol + eps)))
      [] [] [] pred targ j hj (hlen ▸ hj)
    exact hz

theorem normalize_data_target_scale_witness :
    (normalize_data [[2, 6]] [[0, 4]]).1.getD 0 [] =
      (([[2, 6]] : Cols).getD 0 []).map (fun x =>
        (x - colMin (([[0, 4]] : Cols).getD 0 [])) /
          (colMax (([[0, 4]] : Cols).getD 0 []) -
            colMin (([[0, 4]] : Cols).getD 0 []) + eps)) :=
  (normalize_data_target_scale [[2, 6]] [[0, 4]]).2 (by norm_num) 0 (by norm_num)

/- ----------------------------------------------------------------
AnomalyParameters (source lines 142-243), with the parts of the missing
`anomalies` module modelled from the spec.
---------------------------------------------------------------- -/

/-- Method tag `threshold_norm`. -/
def mThresholdNorm : String := "threshold_norm"

/-- Method tag `threshold`. -/
def mThreshold : String := "threshold"

/-- Method tag `peaks`. -/
def mPeaks : String := "peaks"

/-- Method tag `votes`. -/
def mVotes : String := "votes"

/-- Method tag `gaussian`. -/
def mGaussian : String := "gaussian"

/-- `AnomalyParameters.available_methods()`. -/
def available_methods : List String :=
  [mThresholdNorm, mThreshold, mPeaks, mVotes, mGaussian]

/-- Modelled from the spec: the `anomalies` module (`ano`) is not under
`src/`, so its `ErrorNormalizationModel` is represented by the fitted state
its `fit` method receives from the code under `src/`: the error matrix, the
uniform smoothing kernel, and whether Gaussian-likelihood mode (`fit_gauss`)
was requested. -/
structure ErrorNormalizationModel where
  fitError : Cols
  fitConv : List ℚ
  fitGauss : Bool
deriving DecidableEq

/-- `AnomalyParameters` configuration object (constructor fields plus the
attributes assigned in `__init__`). -/
structure AnomalyParameters where
  method : String
  smooth_factor : ℕ
  labels : List String
  ignore : List String
  threshold : ℚ
  n_anomalies : ℕ
  peak_width : ℕ
  err_norm_model : Option ErrorNormalizationModel

set_option linter.unusedVariables false in
/-- `AnomalyParameters.__init__`: `labels` starts empty, `err_norm_model`
starts `None`, and `self.peak_width` is assigned the literal `10`; the
`peaks_width` argument is never read. -/
def AnomalyParameters.init (method : String) (smooth_factor : ℕ)
    (threshold : ℚ) (n_anomalies : ℕ) (peaks_width : ℕ)
    (ignore : List String) : AnomalyParameters :=
  { method := method
    smooth_factor := smooth_factor
    labels := []
    ignore := ignore
    threshold := threshold
    n_anomalies := n_anomalies
    peak_width := 10
    err_norm_model := none }

/-- Assignment `anomaly_params.labels = target_cols` performed by the owning
`TimeseriesPlot` after construction. -/
def AnomalyParameters.setLabels (p : AnomalyParameters)
    (labels : List String) : AnomalyParameters :=
  { p with labels := labels }

/-- Threshold update, used to compare runs that differ only in
`self.threshold`. -/
def AnomalyParameters.setThreshold (p : AnomalyParameters) (t : ℚ) :
    AnomalyParameters :=
  { p with threshold := t }

/-- Column ids `get_col(self.labels, lbl)` for the labels not in `ignore`;
`get_col` returns the first index of the label in the header.  The `none`
branch of `findIdx?` is unreachable because each `lbl` is drawn from
`labels` itself. -/
def colIds (labels ignore : List String) : List ℕ :=
  (labels.filter (fun lbl => !(ignore.contains lbl))).filterMap
    (fun lbl => labels.findIdx? (fun x => x == lbl))

/-- Column slice `error[:, col_ids]` on the column representation. -/
def filteredError (p : AnomalyParameters) (error : Cols) : Cols :=
  (colIds p.labels p.ignore).map (fun i => error.getD i [])

/-- Uniform kernel `[1/c] * c` with `c = smooth_factor + 1`. -/
def convOf (p : AnomalyParameters) : List ℚ :=
  List.replicate (p.smooth_factor + 1) (1 / ((p.smooth_factor : ℚ) + 1))

/-- `AnomalyParameters.fit`: fits a fresh model on the ignore-filtered
(signed, unnormalized) error with the uniform kernel.  `fit_gauss` is not
passed, so the model is fit in mean/std mode (`fitGauss = false`). -/
def AnomalyParameters.fit (p : AnomalyParameters) (error : Cols) :
    AnomalyParameters :=
  { p with err_norm_model := some ⟨filteredError p error, convOf p, false⟩ }

/-- Modelled from the spec: the Smoother of the missing `anomalies` module
is a "same"-mode convolution with a uniform kernel — output length equals
input length, edge samples use the available overlap. -/
def convSame (a : List ℚ) (k : List ℚ) : List ℚ :=
  (List.range a.length).map (fun i =>
    ((List.range k.length).map (fun t =>
      let j : Int := Int.ofNat i + ((k.length : Int) - 1) / 2 - Int.ofNat t
      k.getD t 0 *
        (if 0 ≤ j ∧ j < (a.length : Int) then a.getD j.toNat 0 else 0))).sum)

/-- Modelled from the spec: `ano.sum_conv_error` sums the smoothed
per-feature error traces into one trace, so that dividing by the number of
columns averages the smoothed per-feature traces. -/
def sum_conv_error (cols : Cols) (conv : List ℚ) : List ℚ :=
  (List.range (cols.headD []).length).map (fun i =>
    (cols.map (fun col => (convSame col conv).getD i 0)).sum)

/-- Averaged smoothed trace of the `threshold` branch:
`sum_conv_error(error_norm, conv) / len(col_ids)`. -/
def avgTrace (p : AnomalyParameters) (error : Cols) : List ℚ :=
  (sum_conv_error
      (normalize_error ((filteredError p error).map (fun c => c.map abs)))
      (convOf p)).map
    (fun x => x / ((colIds p.labels p.ignore).length : ℚ))

/-- `np.where(error_norm > self.threshold)[0]`: ascending indices of the
entries strictly above the threshold. -/
def whereGT (trace : List ℚ) (th : ℚ) : List ℕ :=
  (List.range trace.length).filter (fun i => decide (th < trace.getD i 0))

/-- Modelled from the spec: outcome of `compute_anomalies`.  The three
branches that end in calls into the missing `anomalies` module are recorded
with the exact arguments the code under `src/` passes; the `threshold`
branch is computed concretely; an unknown method raises `ValueError`. -/
inductive ComputeResult where
  | modelQuery (model : ErrorNormalizationModel) (queryError : Cols)
      (threshold : ℚ) (conv : List ℚ)
  | peaksQuery (errorNorm : Cols) (nAnomalies : ℕ) (conv : List ℚ)
      (peakWidth : ℕ)
  | votesQuery (errorNorm : Cols) (nAnomalies : ℕ) (conv : List ℚ)
  | thresholdResult (anomalies : List ℕ) (signal : List ℚ)
  | methodError (msg : String)
deriving DecidableEq

/-- Separator of Python list `repr`. -/
def commaSep : String := ", "

/-- Python `repr` of a string list, as interpolated by `str()` into the
`ValueError` message (each item between two apostrophe characters,
`Char.ofNat 39`). -/
def pyRepr (l : List String) : String :=
  "[" ++ String.intercalate commaSep
    (l.map (fun s =>
      String.singleton (Char.ofNat 39) ++ s ++ String.singleton (Char.ofNat 39)))
    ++ "]"

/-- Message of the `ValueError` raised for an unknown method: it names the
offending method value and lists the supported set. -/
def unknownMethodMsg (m : String) : String :=
  "Unknown anomaly method: " ++ m ++ ". Available methods are " ++
    pyRepr available_methods

/-- `AnomalyParameters.compute_anomalies`: filter the columns, normalize the
absolute error, and branch on `self.method`.  The `threshold_norm` and
`gaussian` branches pass the raw filtered `error` (not `error_norm`) to the
model, fitting one on the fly when `self.err_norm_model` is `None`. -/
def compute_anomalies (p : AnomalyParameters) (error : Cols) : ComputeResult :=
  if p.method = mThresholdNorm then
    match p.err_norm_model with
    | some m =>
      ComputeResult.modelQuery m (filteredError p error) p.threshold (convOf p)
    | none =>
      ComputeResult.modelQuery ⟨filteredError p error, convOf p, false⟩
        (filteredError p error) p.threshold (convOf p)
  else if p.method = mGaussian then
    match p.err_norm_model with
    | some m =>
      ComputeResult.modelQuery m (filteredError p error) p.threshold (convOf p)
    | none =>
      ComputeResult.modelQuery ⟨filteredError p error, convOf p, true⟩
        (filteredError p error) p.threshold (convOf p)
  else if p.method = mPeaks then
    ComputeResult.peaksQuery
      (normalize_error ((filteredError p error).map (fun c => c.map abs)))
      p.n_anomalies (convOf p) p.peak_width
  else if p.method = mVotes then
    ComputeResult.votesQuery
      (normalize_error ((filteredError p error).map (fun c => c.map abs)))
      p.n_anomalies (convOf p)
  else if p.method = mThreshold then
    ComputeResult.thresholdResult (whereGT (avgTrace p error) p.threshold)
      (avgTrace p error)
  else
    ComputeResult.methodError (unknownMethodMsg p.method)

/-- Model consulted by a model-based branch, if any. -/
def ComputeResult.queriedModel : ComputeResult → Option ErrorNormalizationModel
  | .modelQuery m _ _ _ => some m
  | _ => none

/-- Matrix passed to `anomaly_dates` by a model-based branch, if any. -/
def ComputeResult.queriedMatrix : ComputeResult → Option Cols
  | .modelQuery _ q _ _ => some q
  | _ => none

/-- Anomaly index list of the concrete `threshold` branch. -/
def ComputeResult.anomalyList : ComputeResult → List ℕ
  | .thresholdResult a _ => a
  | _ => []

/- ----------------------------------------------------------------
Branch lemmas for `compute_anomalies`.
---------------------------------------------------------------- -/

theorem compute_anomalies_threshold (p : AnomalyParameters) (error : Cols)
    (hm : p.method = mThreshold) :
    compute_anomalies p error =
      ComputeResult.thresholdResult (whereGT (avgTrace p error) p.threshold)
        (avgTrace p error) := by
  rw [compute_anomalies, hm]
  rw [if_neg (by decide), if_neg (by decide), if_neg (by decide),
    if_neg (by decide), if_pos rfl]

theorem mem_whereGT {trace : List ℚ} {th : ℚ} {i : ℕ} :
    i ∈ whereGT trace th ↔ i < trace.length ∧ th < trace.getD i 0 := by
  simp [whereGT, List.mem_filter, List.mem_range]

theorem filter_length_mono {α : Type} {l : List α} {p q : α → Bool}
    (h : ∀ x ∈ l, p x = true → q x = true) :
    (l.filter p).length ≤ (l.filter q).length := by
  induction l with
  | nil => simp
  | cons a t ih =>
    have ht := ih (fun x hx => h x (List.mem_cons_of_mem _ hx))
    rcases hp : p a with _ | _ <;> rcases hq : q a with _ | _
    · simp only [List.filter_cons, hp, hq]
      simpa using ht
    · simp only [List.filter_cons, hp, hq]
      simp only [Bool.false_eq_true, if_false, if_true, List.length_cons]
      omega
    · exact absurd (h a (List.mem_cons_self _ _) hp) (by simp [hq])
    · simp only [List.filter_cons, hp, hq]
      simp only [if_true, List.length_cons]
      omega

/-- C4: for the `threshold` method, the flagged steps are exactly the
indices whose averaged smoothed trace strictly exceeds `self.threshold`;
the result does not depend on `n_anomalies` (no top-K cap), and raising the
threshold shrinks the anomaly set (subset relation, hence a non-increasing
count). -/
theorem threshold_method_monotone :
    ∀ (p : AnomalyParameters) (error : Cols) (t1 t2 : ℚ),
      p.method = mThreshold → t1 ≤ t2 →
      (∀ i : ℕ, i ∈ (compute_anomalies p error).anomalyList ↔
          i < (avgTrace p error).length ∧
            p.threshold < (avgTrace p error).getD i 0) ∧
      (∀ n : ℕ,
        (compute_anomalies { p with n_anomalies := n } error).anomalyList =
          (compute_anomalies p error).anomalyList) ∧
      (compute_anomalies (p.setThreshold t2) error).anomalyList ⊆
        (compute_anomalies (p.setThreshold t1) error).anomalyList ∧
      ((compute_anomalies (p.setThreshold t2) error).anomalyList).length ≤
        ((compute_anomalies (p.setThreshold t1) error).anomalyList).length := by
  intro p error t1 t2 hm h12
  have hbase := compute_anomalies_threshold p error hm
  have h1 := compute_anomalies_threshold (p.setThreshold t1) error hm
  have h2 := compute_anomalies_threshold (p.setThreshold t2) error hm
  have hn : ∀ n : ℕ, compute_anomalies { p with n_anomalies := n } error =
      ComputeResult.thresholdResult (whereGT (avgTrace p error) p.threshold)
        (avgTrace p error) :=
    fun n => compute_anomalies_threshold { p with n_anomalies := n } error hm
  refine ⟨?_, ?_, ?_, ?_⟩
  · intro i
    rw [hbase]
    exact mem_whereGT
  · intro n
    rw [hbase, hn n]
  · intro i hi
    rw [h2] at hi
    rw [h1]
    rw [show (ComputeResult.thresholdResult
      (whereGT (avgTrace (p.setThreshold t2) error) (p.setThreshold t2).threshold)
      (avgTrace (p.setThreshold t2) error)).anomalyList =
        whereGT (avgTrace p error) t2 from rfl] at hi
    rw [show (ComputeResult.thresholdResult
      (whereGT (avgTrace (p.setThreshold t1) error) (p.setThreshold t1).threshold)
      (avgTrace (p.setThreshold t1) error)).anomalyList =
        whereGT (avgTrace p error) t1 from rfl]
    rw [mem_whereGT] at hi ⊢
    exact ⟨hi.1, lt_of_le_of_lt h12 hi.2⟩
  · rw [h1, h2]
    show (whereGT (avgTrace p error) t2).length ≤
      (whereGT (avgTrace p error) t1).length
    apply filter_length_mono
    intro x _ hx
    simp only [decide_eq_true_eq] at hx ⊢
    exact lt_of_le_of_lt h12 hx

/-- Feature label used in concrete witness inputs. -/
def lblA : String := "a"

theorem threshold_method_monotone_witness :
    ((compute_anomalies
        (((AnomalyParameters.init mThreshold 0 (1 / 2) 40 10 []).setLabels
          [lblA]).setThreshold (3 / 4)) [[0, 10, 0]]).anomalyList).length ≤
      ((compute_anomalies
        (((AnomalyParameters.init mThreshold 0 (1 / 2) 40 10 []).setLabels
          [lblA]).setThreshold (1 / 2)) [[0, 10, 0]]).anomalyList).length :=
  (threshold_method_monotone
    ((AnomalyParameters.init mThreshold 0 (1 / 2) 40 10 []).setLabels [lblA])
    [[0, 10, 0]] (1 / 2) (3 / 4) rfl (by norm_num)).2.2.2

/-- C5 (amended): for the `gaussian` method the model is fit in
Gaussian-likelihood mode only on the fit-on-query fallback path (no pre-fit
model); a model pre-fit by `AnomalyParameters.fit` is fit with `fit_gauss`
unset, i.e. in mean/std mode, and `compute_anomalies` consults it as-is. -/
theorem gaussian_fit_modes :
    (∀ (p : AnomalyParameters) (error : Cols),
      p.method = mGaussian → p.err_norm_model = none →
      (compute_anomalies p error).queriedModel =
        some ⟨filteredError p error, convOf p, true⟩) ∧
    (∀ (p : AnomalyParameters) (efit error : Cols),
      p.method = mGaussian →
      (p.fit efit).err_norm_model =
          some ⟨filteredError p efit, convOf p, false⟩ ∧
      (compute_anomalies (p.fit efit) error).queriedModel =
        some ⟨filteredError p efit, convOf p, false⟩) := by
  constructor
  · intro p error hm hn
    rw [compute_anomalies, hm, hn, if_neg (by decide), if_pos rfl]
    rfl
  · intro p efit error hm
    refine ⟨rfl, ?_⟩
    rw [compute_anomalies, show (p.fit efit).method = p.method from rfl, hm,
      if_neg (by decide), if_pos rfl]
    rfl

theorem gaussian_fit_modes_witness :
    (compute_anomalies
        ((AnomalyParameters.init mGaussian 20 3 40 10 []).setLabels [lblA])
        [[1]]).queriedModel =
      some ⟨filteredError
          ((AnomalyParameters.init mGaussian 20 3 40 10 []).setLabels [lblA])
          [[1]],
        convOf ((AnomalyParameters.init mGaussian 20 3 40 10 []).setLabels [lblA]),
        true⟩ :=
  gaussian_fit_modes.1
    ((AnomalyParameters.init mGaussian 20 3 40 10 []).setLabels [lblA])
    [[1]] rfl rfl

/-- Concrete `gaussian`-method parameter object whose model was pre-fit by
`AnomalyParameters.fit`. -/
def gaussPrefitParams : AnomalyParameters :=
  ((AnomalyParameters.init mGaussian 0 3 40 10 []).setLabels [lblA]).fit [[1]]

/-- C5 counterexample: after `fit`, the model consulted by the `gaussian`
method of `compute_anomalies` has `fitGauss = false` — the pre-fit path is
not in Gaussian-likelihood mode, contradicting the claim that both paths
are. -/
theorem gaussian_prefit_counterexample :
    ((compute_anomalies gaussPrefitParams [[1]]).queriedModel.map
        (fun m => m.fitGauss)) = some false ∧
    ((compute_anomalies gaussPrefitParams [[1]]).queriedModel.map
        (fun m => m.fitGauss)) ≠ some true := by
  have hx : ((compute_anomalies gaussPrefitParams [[1]]).queriedModel.map
      (fun m => m.fitGauss)) = some false := rfl
  refine ⟨hx, ?_⟩
  rw [hx]
  decide

/-- C6 (amended): for the `threshold_norm` method, the matrix passed to the
model — to `anomaly_dates`, and to `fit` on the fit-on-query fallback — is
the ignore-filtered error matrix itself, signed and unnormalized (the
normalized absolute error is computed but used only by the other
branches). -/
theorem threshold_norm_query_matrix :
    ∀ (p : AnomalyParameters) (error : Cols),
      p.method = mThresholdNorm →
      (compute_anomalies p error).queriedMatrix =
          some (filteredError p error) ∧
      (p.err_norm_model = none →
        (compute_anomalies p error).queriedModel =
          some ⟨filteredError p error, convOf p, false⟩) := by
  intro p error hm
  constructor
  · rw [compute_anomalies, hm, if_pos rfl]
    cases hmod : p.err_norm_model with
    | none => rfl
    | some m => rfl
  · intro hn
    rw [compute_anomalies, hm, hn, if_pos rfl]
    rfl

/-- Concrete `threshold_norm` parameter object with one label and no
pre-fit model. -/
def thrNormParams : AnomalyParameters :=
  (AnomalyParameters.init mThresholdNorm 20 3 40 10 []).setLabels [lblA]

theorem threshold_norm_query_matrix_witness :
    (compute_anomalies thrNormParams [[2, 0]]).queriedMatrix =
      some (filteredError thrNormParams [[2, 0]]) :=
  (threshold_norm_query_matrix thrNormParams [[2, 0]] rfl).1

/-- C6 counterexample: on the error matrix `[[2, 0]]` the matrix passed to
the model is `[[2, 0]]` itself, which differs from the per-column min-max
normalized absolute error `[[200000/200001, 0]]` claimed by the spec. -/
theorem threshold_norm_matrix_counterexample :
    (compute_anomalies thrNormParams [[2, 0]]).queriedMatrix ≠
      some (normalize_error
        ((filteredError thrNormParams [[2, 0]]).map (fun c => c.map abs))) := by
  have hx : (compute_anomalies thrNormParams [[2, 0]]).queriedMatrix =
      some [[2, 0]] := by decide
  have harg : (filteredError thrNormParams [[2, 0]]).map (fun c => c.map abs) =
      [[2, 0]] := by decide
  rw [hx, harg]
  intro h
  have h2 := Option.some.inj h
  have h3 := congrArg (fun l : Cols => (l.getD 0 []).getD 0 0) h2
  simp only [normalize_error, List.map_cons, List.map_nil,
    List.getD_cons_zero] at h3
  norm_num [colMin, colMax, min_def, max_def, eps] at h3

/-- C8: for a method value outside the supported set, `compute_anomalies`
raises `ValueError` with a message naming the offending value and listing
the supported methods, and no branch computation is performed. -/
theorem unknown_method_error :
    ∀ (p : AnomalyParameters) (error : Cols),
      p.method ∉ available_methods →
      compute_anomalies p error =
        ComputeResult.methodError (unknownMethodMsg p.method) := by
  intro p error hm
  simp only [available_methods, List.mem_cons, List.not_mem_nil, or_false,
    not_or] at hm
  obtain ⟨h1, h2, h3, h4, h5⟩ := hm
  rw [compute_anomalies, if_neg h1, if_neg h5, if_neg h3, if_neg h4, if_neg h2]

/-- Unsupported method tag used as witness input. -/
def mFoo : String := "foo"

theorem unknown_method_error_witness :
    compute_anomalies (AnomalyParameters.init mFoo 20 3 40 10 []) [] =
      ComputeResult.methodError (unknownMethodMsg mFoo) :=
  unknown_method_error (AnomalyParameters.init mFoo 20 3 40 10 []) []
    (by decide)

/-- C10: the `peaks_width` constructor argument is ignored — the constructed
object always has `peak_width = 10`, and `compute_anomalies` behaves
identically for any two values of the argument. -/
theorem peaks_width_ignored :
    ∀ (method : String) (sf : ℕ) (th : ℚ) (na : ℕ) (v w : ℕ)
      (ignore labels : List String) (error : Cols),
      (AnomalyParameters.init method sf th na v ignore).peak_width = 10 ∧
      compute_anomalies
          ((AnomalyParameters.init method sf th na v ignore).setLabels labels)
          error =
        compute_anomalies
          ((AnomalyParameters.init method sf th na w ignore).setLabels labels)
          error := by
  intro method sf th na v w ignore labels error
  exact ⟨rfl, rfl⟩

/- ----------------------------------------------------------------
ErrorAggregator: `concat_all_datafiles` (source lines 84-103).  Python
dicts are embedded as insertion-ordered association lists with unique keys.
---------------------------------------------------------------- -/

/-- Python dict lookup: value of the first binding of the key, if any. -/
def dictGet {α : Type} : List (String × α) → String → Option α
  | [], _ => none
  | (k0, v) :: rest, k => if k0 = k then some v else dictGet rest k

/-- Loop body of `concat_all_datafiles`: `result[model] = error[model]` when
the model is new (appended at the end, Python dict insertion order), else
`result[model] = np.concatenate((result[model], error[model]), axis=0)` —
row concatenation on the time axis. -/
def dictUpd (res : List (String × Mat)) (k : String) (v : Mat) :
    List (String × Mat) :=
  match res with
  | [] => [(k, v)]
  | (k0, v0) :: rest =>
    if k0 = k then (k0, v0 ++ v) :: rest else (k0, v0) :: dictUpd rest k v

/-- Inner loop `for model in error:` over one file dict. -/
def stepFile (res : List (String × Mat)) (d : List (String × Mat)) :
    List (String × Mat) :=
  d.foldl (fun r p => dictUpd r p.1 p.2) res

/-- Message prefix of the Python `KeyError` exception. -/
def keyErrPrefix : String := "KeyError: "

/-- Outer loop over `datafiles`; `errors[datafile]` raises `KeyError` when
the file is absent from the mapping. -/
def concatLoop (errors : List (String × List (String × Mat))) :
    List String → List (String × Mat) → Except String (List (String × Mat))
  | [], result => Except.ok result
  | f :: rest, result =>
    match dictGet errors f with
    | none => Except.error (keyErrPrefix ++ f)
    | some d => concatLoop errors rest (stepFile result d)

/-- `concat_all_datafiles(errors, datafiles)`. -/
def concat_all_datafiles (errors : List (String × List (String × Mat)))
    (datafiles : List String) : Except String (List (String × Mat)) :=
  concatLoop errors datafiles []

/-- Per-file matrices of one model, in file-list order (files lacking the
model contribute nothing). -/
def modelBlocks (errors : List (String × List (String × Mat)))
    (datafiles : List String) (m : String) : List Mat :=
  datafiles.filterMap (fun f => (dictGet errors f).bind (fun d => dictGet d m))

/-- Combination of an already-accumulated matrix with later blocks. -/
def joinBlocks (o : Option Mat) (bs : List Mat) : Option Mat :=
  match bs with
  | [] => o
  | _ => some ((o.getD []) ++ bs.flatten)

/-- Result of an `ok` aggregation (`[]` on the unreachable error case). -/
def okD (e : Except String (List (String × Mat))) : List (String × Mat) :=
  match e with
  | Except.ok r => r
  | Except.error _ => []

theorem dictGet_dictUpd_self (res : List (String × Mat)) (k : String) (v : Mat) :
    dictGet (dictUpd res k v) k = some ((dictGet res k).getD [] ++ v) := by
  induction res with
  | nil => simp [dictGet, dictUpd]
  | cons p rest ih =>
    obtain ⟨k0, v0⟩ := p
    by_cases h : k0 = k
    · simp [dictGet, dictUpd, h]
    · simp [dictGet, dictUpd, h, ih]

theorem dictGet_dictUpd_ne (res : List (String × Mat)) {k e : String}
    (h : e ≠ k) (v : Mat) : dictGet (dictUpd res e v) k = dictGet res k := by
  induction res with
  | nil => simp [dictGet, dictUpd, h]
  | cons p rest ih =>
    obtain ⟨k0, v0⟩ := p
    by_cases h0 : k0 = e
    · subst h0
      simp [dictGet, dictUpd, h]
    · simp [dictGet, dictUpd, h0, ih]

theorem dictGet_eq_none_of_not_mem {α : Type} (d : List (String × α))
    (k : String) (h : k ∉ d.map Prod.fst) : dictGet d k = none := by
  induction d with
  | nil => rfl
  | cons p rest ih =>
    obtain ⟨k0, v0⟩ := p
    simp only [List.map_cons, List.mem_cons] at h
    rw [dictGet, if_neg (by tauto)]
    exact ih (by tauto)

theorem dictGet_mem {α : Type} {d : List (String × α)} {k : String} {v : α}
    (h : dictGet d k = some v) : (k, v) ∈ d := by
  induction d with
  | nil => simp [dictGet] at h
  | cons p rest ih =>
    obtain ⟨k0, v0⟩ := p
    by_cases h0 : k0 = k
    · subst h0
      rw [dictGet, if_pos rfl, Option.some.injEq] at h
      subst h
      exact List.mem_cons_self _ _
    · rw [dictGet, if_neg h0] at h
      exact List.mem_cons_of_mem _ (ih h)

theorem stepFile_get (res : List (String × Mat)) (d : List (String × Mat))
    (hnd : (d.map Prod.fst).Nodup) (m : String) :
    dictGet (stepFile res d) m =
      match dictGet d m with
      | none => dictGet res m
      | some v => some ((dictGet res m).getD [] ++ v) := by
  induction d generalizing res with
  | nil => simp [stepFile, dictGet]
  | cons p rest ih =>
    obtain ⟨k, v⟩ := p
    simp only [List.map_cons, List.nodup_cons] at hnd
    obtain ⟨hk, hrest⟩ := hnd
    have hstep : stepFile res ((k, v) :: rest) = stepFile (dictUpd res k v) rest := rfl
    rw [hstep, ih (dictUpd res k v) hrest]
    by_cases hkm : k = m
    · subst hkm
      have hnone : dictGet rest k = none :=
        dictGet_eq_none_of_not_mem rest k hk
      rw [hnone, show dictGet ((k, v) :: rest) k = some v by
        rw [dictGet, if_pos rfl]]
      rw [dictGet_dictUpd_self]
    · rw [show dictGet ((k, v) :: rest) m = dictGet rest m by
        rw [dictGet, if_neg hkm]]
      rw [dictGet_dictUpd_ne res hkm v]

theorem concatLoop_spec (errors : List (String × List (String × Mat)))
    (datafiles : List String)
    (hf : ∀ f ∈ datafiles, (dictGet errors f).isSome)
    (hnd : ∀ pr ∈ errors, (pr.2.map Prod.fst).Nodup) :
    ∀ acc, ∃ res, concatLoop errors datafiles acc = Except.ok res ∧
      ∀ m, dictGet res m =
        joinBlocks (dictGet acc m) (modelBlocks errors datafiles m) := by
  induction datafiles with
  | nil =>
    intro acc
    exact ⟨acc, rfl, fun m => by simp [modelBlocks, joinBlocks]⟩
  | cons f rest ih =>
    intro acc
    have hsome := hf f (List.mem_cons_self _ _)
    obtain ⟨d, hd⟩ := Option.isSome_iff_exists.mp hsome
    have hddnd : (d.map Prod.fst).Nodup := hnd _ (dictGet_mem hd)
    obtain ⟨res, hres, hm⟩ :=
      ih (fun g hg => hf g (List.mem_cons_of_mem _ hg)) (stepFile acc d)
    refine ⟨res, ?_, ?_⟩
    · rw [concatLoop, hd]
      exact hres
    · intro m
      rw [hm m, stepFile_get acc d hddnd m]
      have hblocks : modelBlocks errors (f :: rest) m =
          match dictGet d m with
          | none => modelBlocks errors rest m
          | some v => v :: modelBlocks errors rest m := by
        rw [modelBlocks, List.filterMap_cons, hd]
        simp only [Option.some_bind]
        cases dictGet d m with
        | none => rfl
        | some v => rfl
      rw [hblocks]
      cases hdm : dictGet d m with
      | none => rfl
      | some v =>
        cases hbs : modelBlocks errors rest m with
        | nil => simp [joinBlocks]
        | cons b bs => simp [joinBlocks, List.flatten_cons, List.append_assoc]

/-- C7: for every error mapping and file list (each listed file present,
dict keys unique), `concat_all_datafiles` succeeds and maps each model to
the row-wise (time-axis) concatenation of that model's per-file matrices,
rows kept in order within each file and file blocks in the listed order —
so permuting the file list permutes the blocks accordingly; a model present
in no listed file is absent from the result. -/
theorem concat_all_datafiles_blocks :
    ∀ (errors : List (String × List (String × Mat))) (datafiles : List String),
      (∀ f ∈ datafiles, (dictGet errors f).isSome) →
      (∀ pr ∈ errors, (pr.2.map Prod.fst).Nodup) →
      concat_all_datafiles errors datafiles =
          Except.ok (okD (concat_all_datafiles errors datafiles)) ∧
      ∀ m, dictGet (okD (concat_all_datafiles errors datafiles)) m =
        joinBlocks none (modelBlocks errors datafiles m) := by
  intro errors datafiles hf hnd
  obtain ⟨res, hres, hm⟩ := concatLoop_spec errors datafiles hf hnd []
  have hc : concat_all_datafiles errors datafiles = Except.ok res := hres
  have hok : okD (concat_all_datafiles errors datafiles) = res := by
    rw [hc]
    rfl
  refine ⟨by rw [hc]; rfl, ?_⟩
  intro m
  rw [hok, hm m]
  rfl

/-- Data file name used in the aggregation witness. -/
def fileF1 : String := "f1"

/-- Data file name used in the aggregation witness. -/
def fileF2 : String := "f2"

/-- Model name used in the aggregation witness. -/
def modelM : String := "m"

/-- Second model name used in the aggregation witness. -/
def modelN : String := "n"

/-- Concrete two-file error mapping: model `m` appears in both files,
model `n` only in the second. -/
def exampleErrors : List (String × List (String × Mat)) :=
  [(fileF1, [(modelM, [[1]])]), (fileF2, [(modelM, [[2]]), (modelN, [[7]])])]

theorem concat_all_datafiles_blocks_witness :
    concat_all_datafiles exampleErrors [fileF1, fileF2] =
        Except.ok (okD (concat_all_datafiles exampleErrors [fileF1, fileF2])) ∧
    dictGet (okD (concat_all_datafiles exampleErrors [fileF1, fileF2])) modelM =
      joinBlocks none (modelBlocks exampleErrors [fileF1, fileF2] modelM) := by
  have h := concat_all_datafiles_blocks exampleErrors [fileF1, fileF2]
    (by decide) (by decide)
  exact ⟨h.1, h.2 modelM⟩
